import Mathlib

/-!
Shallow embedding of `streamlit_app.py` (the "Dólar CCL a precios de hoy"
pipeline).  Dates are encoded as natural numbers whose numeric order agrees
with chronological order (daily dates as `YYYYMMDD`, monthly dates as
`YYYYMM`).  Money and index values are rationals; pandas `NaN` entries are
modelled with `Option`, and fallible functions return `Option`/`Except`.
-/

namespace MepHoy

/-- One observation of a time series: a date (encoded as a natural number,
ordered chronologically) and a rational value.  This is the canonical
`(fecha, value)` row shape shared by every DataFrame in the script. -/
structure Obs where
  fecha : Nat
  value : ℚ
deriving DecidableEq

/-- Date-based comparison used by every `sort_values('fecha')` in the script. -/
def leF (a b : Obs) : Prop := a.fecha ≤ b.fecha

instance : DecidableRel leF := fun a b => Nat.decLe a.fecha b.fecha

instance : IsTotal Obs leF := ⟨fun a b => Nat.le_total a.fecha b.fecha⟩

instance : IsTrans Obs leF := ⟨fun _ _ _ => Nat.le_trans⟩

/-- Model of `df.sort_values('fecha')`: sort a list of observations by date. -/
def sortByFecha (l : List Obs) : List Obs := List.insertionSort leF l

/-! ### Temporal aligner and adjuster (lines 282-299 of the script) -/

/-- Backward as-of match of `pd.merge_asof(..., direction='backward')`: for a
nominal date `d`, the matched index observation is the last row of the
(sorted) index series whose date is `≤ d`; `none` when no index date is
`≤ d` (pandas leaves `NaN`, which the subsequent `dropna` removes). -/
def asofMatch (idx : List Obs) (d : Nat) : Option Obs :=
  (idx.filter (fun o => o.fecha ≤ d)).getLast?

/-- One row of `df_merged`: the nominal date, the nominal CCL value and the
index value attached by the as-of join (columns `fecha`, `ccl_nominal`,
`ipc`). -/
structure MRow where
  fecha : Nat
  ccl_nominal : ℚ
  ipc : ℚ
deriving DecidableEq

/-- Model of `pd.merge_asof(df_ccl, df_inflacion, on='fecha',
direction='backward')` followed by `df_merged.dropna()`: each nominal row
keeps its date and value and receives the backward-matched index value;
rows with no match (NaN after the join) are dropped. -/
def mergeAsofDropna (ccl idx : List Obs) : List MRow :=
  ccl.filterMap (fun o =>
    (asofMatch idx o.fecha).map (fun m => MRow.mk o.fecha o.value m.value))

/-- One output record of the pipeline: `fecha`, `ccl_nominal`, the joined
index value `ipc` and the computed `ccl_ajustado` column. -/
structure AdjRecord where
  fecha : Nat
  ccl_nominal : ℚ
  ipc : ℚ
  ccl_ajustado : ℚ
deriving DecidableEq

/-- Failure of the align-and-adjust stage: the script calls `st.error` and
`st.stop()` when `df_merged` is empty after the join and `dropna`. -/
inductive AlignError where
  | noOverlap
deriving DecidableEq

instance {ε α : Type} [DecidableEq ε] [DecidableEq α] : DecidableEq (Except ε α) := fun x y =>
  match x, y with
  | .error a, .error b =>
    if h : a = b then .isTrue (by rw [h]) else .isFalse (fun hc => by cases hc; exact h rfl)
  | .error _, .ok _ => .isFalse (fun hc => by cases hc)
  | .ok _, .error _ => .isFalse (fun hc => by cases hc)
  | .ok a, .ok b =>
    if h : a = b then .isTrue (by rw [h]) else .isFalse (fun hc => by cases hc; exact h rfl)

/-- Model of the align-and-adjust stage (lines 282-299): sort both series by
date, as-of backward join, drop incomplete rows, stop with an error when
nothing survives, otherwise take the anchor
`inflacion_actual = df_merged[columna_inflacion].iloc[-1]` (the index value
of the LAST merged row) and compute
`ccl_ajustado = ccl_nominal * (inflacion_actual / ipc)` for every row. -/
def alignAdjust (ccl ipc : List Obs) : Except AlignError (List AdjRecord) :=
  match (mergeAsofDropna (sortByFecha ccl) (sortByFecha ipc)).getLast? with
  | none => .error .noOverlap
  | some lastRow =>
      .ok ((mergeAsofDropna (sortByFecha ccl) (sortByFecha ipc)).map (fun r =>
        AdjRecord.mk r.fecha r.ccl_nominal r.ipc (r.ccl_nominal * (lastRow.ipc / r.ipc))))

/-- Modelled from the spec: `latest_index = index_series.last().value`, the
value of the chronologically last observation of the price-index series
itself, independent of the join.  Used only to compare the spec's anchor
with the one the code actually uses. -/
def specLatestIndexValue (ipc : List Obs) : Option ℚ :=
  ((sortByFecha ipc).getLast?).map Obs.value

/-! ### Nominal-rate composer `get_ccl_from_ggal` (lines 112-190) -/

/-- Outcome of one provider fetch as seen by the composer: either a parsed
`(fecha, value)` table or a raised exception / unavailable source. -/
inductive FetchResult where
  | ok (rows : List Obs)
  | fail
deriving DecidableEq

/-- Model of the data912.com fallback branch (lines 149-159): a failed
request or a response whose empty frame lacks the `date`/`c` columns raises
and yields `None`; otherwise the parsed rows are used as the ARS leg. -/
def fallbackArs : FetchResult → Option (List Obs)
  | .fail => none
  | .ok rows => if rows.isEmpty then none else some rows

/-- Model of `pd.merge(df_ars, df_usd, on='fecha', how='inner')`: every ARS
row is paired with every USD row carrying the same date, preserving the
left (ARS) row order. -/
def mergeInner (ars usd : List Obs) : List (Nat × ℚ × ℚ) :=
  ars.flatMap (fun a =>
    (usd.filter (fun u => u.fecha = a.fecha)).map (fun u => (a.fecha, a.value, u.value)))

/-- Model of steps 2-3 of `get_ccl_from_ggal`: resolve the ARS leg.  A
successful non-empty Yahoo Finance download is used directly; a raised
exception or an empty frame falls through to the data912.com fallback. -/
def resolveArs (arsPrimary arsFallback : FetchResult) : Option (List Obs) :=
  match arsPrimary with
  | .ok rows => if rows.isEmpty then fallbackArs arsFallback else some rows
  | .fail => fallbackArs arsFallback

/-- Model of step 4 of `get_ccl_from_ggal` (lines 161-190): check the legs
are non-empty, inner-join them on `fecha`, drop empty joins, compute
`ccl_nominal = ggal_ars / ggal_usd * 10`, keep the strictly positive
values, and fail with `None` when nothing remains.  (The `dropna` after the
merge is the identity here because an inner join introduces no NaN.) -/
def composeFromLegs (arsRows usdRows : List Obs) : Option (List Obs) :=
  if arsRows.isEmpty then none
  else
    let df := mergeInner arsRows usdRows
    if df.isEmpty then none
    else
      let dfCcl := df.map (fun r => Obs.mk r.1 (r.2.1 / r.2.2 * 10))
      let dfCclPos := dfCcl.filter (fun o => 0 < o.value)
      if dfCclPos.isEmpty then none else some dfCclPos

/-- Model of `get_ccl_from_ggal` (lines 112-190).  The three arguments are
the outcomes of the three possible fetches: the GGAL ADR in USD from Yahoo
Finance (mandatory), the GGAL.BA ARS leg from Yahoo Finance (primary) and
the data912.com ARS leg (fallback).  A failed or empty USD leg is fatal;
the ARS leg is resolved with at most one fallback retry; then the legs are
joined and the ratio computed by `composeFromLegs`. -/
def composeCCL (usdLeg arsPrimary arsFallback : FetchResult) : Option (List Obs) :=
  match usdLeg with
  | .fail => none
  | .ok usdRows =>
    if usdRows.isEmpty then none
    else
      match resolveArs arsPrimary arsFallback with
      | none => none
      | some arsRows => composeFromLegs arsRows usdRows

/-! ### Price-index provider `get_ipc_from_datos_gob_ar` (lines 193-263) -/

/-- The hard-coded INDEC monthly percentage table `datos_2025`
(lines 233-240): `(month, monthly inflation percentage)`. -/
def datos2025 : List (Nat × ℚ) :=
  [(202501, (22 : ℚ)/10), (202502, (24 : ℚ)/10), (202503, (37 : ℚ)/10),
   (202504, (28 : ℚ)/10), (202505, (15 : ℚ)/10), (202506, (16 : ℚ)/10)]

/-- The cutoff month `fecha_junio_2025 = pd.Timestamp('2025-06-01')`. -/
def fechaJunio2025 : Nat := 202506

/-- Model of `df['fecha'].dt.to_period('M').dt.to_timestamp()`: truncate a
daily date code `YYYYMMDD` to its month code `YYYYMM`. -/
def truncMonth (d : Nat) : Nat := d / 100

/-- Model of the parse-and-clean prefix of `get_ipc_from_datos_gob_ar`
(lines 210-215): build `(fecha, ipc)` rows, coerce values numerically
(`errors='coerce'` turns unparseable entries into NaN, modelled by `none`)
and drop the NaN rows. -/
def parsedIpc (raw : List (Nat × Option ℚ)) : List Obs :=
  raw.filterMap (fun p => p.2.map (fun v => Obs.mk p.1 v))

/-- Model of lines 220-221: truncate every date to its month and sort the
cleaned frame ascending by date. -/
def processIpc (raw : List (Nat × Option ℚ)) : List Obs :=
  sortByFecha ((parsedIpc raw).map (fun o => Obs.mk (truncMonth o.fecha) o.value))

/-- Model of the gap-filling loop (lines 243-252): walk the reference table
keeping the running level `ipc_actual`; every table month strictly after
the last retrieved month appends one synthesized observation
`ipc_actual * (1 + pct/100)` and updates the running level. -/
def gapFillLoop : ℚ → Nat → List (Nat × ℚ) → List Obs
  | _, _, [] => []
  | ipcActual, ultimo, (f, pct) :: rest =>
    if ultimo < f then
      (Obs.mk f (ipcActual * (1 + pct/100))) :: gapFillLoop (ipcActual * (1 + pct/100)) ultimo rest
    else gapFillLoop ipcActual ultimo rest

/-- Model of `get_ipc_from_datos_gob_ar` applied to an already fetched and
date-parsed API payload `raw` (a network or schema failure returns `None`
before this point and is not modelled here).  Cleans the rows, fails with
`None` when nothing survives (the `ValueError` branch), truncates dates to
months, sorts, and when the last retrieved month precedes June 2025 appends
the synthesized 2025 observations computed from `datos2025`. -/
def get_ipc (raw : List (Nat × Option ℚ)) : Option (List Obs) :=
  if (parsedIpc raw).isEmpty then none
  else
    let df := processIpc raw
    match df.getLast? with
    | none => none
    | some lastObs =>
      if lastObs.fecha < fechaJunio2025 then
        some (df ++ gapFillLoop lastObs.value lastObs.fecha datos2025)
      else
        some df

/-- Modelled from the spec: the synthesized continuation
`index[m+1] = index[m] * (1 + pct[m+1]/100)`, one observation per table
entry, chained in order from the last retrieved level. -/
def specSynth : ℚ → List (Nat × ℚ) → List Obs
  | _, [] => []
  | v, (f, pct) :: rest => (Obs.mk f (v * (1 + pct/100))) :: specSynth (v * (1 + pct/100)) rest

/-! ### Foreign index provider `get_cpi_usa` (lines 29-107) -/

/-- The hard-coded FRED CPIAUCSL table `datos_cpi` (lines 53-96), monthly
observations from January 2015 through June 2025.  The second component is
the index value in thousandths (the source literal `233.707` is stored as
`233707` and divided by `1000` when the observation is built), keeping the
embedding exact while staying decidable. -/
def datos_cpi : List (Nat × Nat) :=
 [(201501, 233707), (201502, 234722), (201503, 236119),
  (201504, 236599), (201505, 237805), (201506, 238638),
  (201507, 238654), (201508, 238316), (201509, 237945),
  (201510, 237838), (201511, 237336), (201512, 236525),
  (201601, 236916), (201602, 237111), (201603, 238132),
  (201604, 239261), (201605, 240229), (201606, 241018),
  (201607, 240628), (201608, 240849), (201609, 241428),
  (201610, 241729), (201611, 241353), (201612, 241432),
  (201701, 242839), (201702, 243603), (201703, 243801),
  (201704, 244524), (201705, 244733), (201706, 244955),
  (201707, 244786), (201708, 245519), (201709, 246819),
  (201710, 246663), (201711, 246669), (201712, 246524),
  (201801, 247867), (201802, 248991), (201803, 249554),
  (201804, 250546), (201805, 251588), (201806, 251989),
  (201807, 252006), (201808, 252146), (201809, 252439),
  (201810, 252885), (201811, 252038), (201812, 251233),
  (201901, 251712), (201902, 252776), (201903, 254202),
  (201904, 255548), (201905, 256092), (201906, 256143),
  (201907, 256571), (201908, 256558), (201909, 256759),
  (201910, 257346), (201911, 257208), (201912, 256974),
  (202001, 257971), (202002, 258678), (202003, 258115),
  (202004, 256389), (202005, 256394), (202006, 257797),
  (202007, 259101), (202008, 259918), (202009, 260280),
  (202010, 260388), (202011, 260229), (202012, 260474),
  (202101, 261582), (202102, 263014), (202103, 264877),
  (202104, 267054), (202105, 269195), (202106, 271696),
  (202107, 273003), (202108, 273567), (202109, 274310),
  (202110, 276589), (202111, 277948), (202112, 278802),
  (202201, 281148), (202202, 283716), (202203, 287708),
  (202204, 289109), (202205, 292296), (202206, 296311),
  (202207, 296276), (202208, 296171), (202209, 296808),
  (202210, 298012), (202211, 297711), (202212, 296797),
  (202301, 299170), (202302, 300840), (202303, 301836),
  (202304, 303363), (202305, 304127), (202306, 305109),
  (202307, 305691), (202308, 307026), (202309, 307789),
  (202310, 307671), (202311, 307671), (202312, 307671),
  (202401, 308417), (202402, 310326), (202403, 312230),
  (202404, 313548), (202405, 313225), (202406, 313049),
  (202407, 313534), (202408, 314045), (202409, 314069),
  (202410, 314616), (202411, 315620), (202412, 315441),
  (202501, 316705), (202502, 317477), (202503, 318876),
  (202504, 319654), (202505, 320266), (202506, 320890)]

/-- Model of `get_cpi_usa` (lines 29-107): no request is issued; the
function builds a frame from the hard-coded `datos_cpi` dictionary.  Its
body is pure, so the `except` branch returning `None` can never be taken;
the model therefore always returns `some`. -/
def cpiObs : List Obs := datos_cpi.map (fun p => Obs.mk p.1 ((p.2 : ℚ)/1000))

/-- Model of `get_cpi_usa` (lines 29-107) continued: the frame is built from
the table and sorted by date. -/
def get_cpi_usa : Option (List Obs) :=
  some (sortByFecha cpiObs)

/-! ### Module-level pipeline entry (lines 265-299) -/

/-- The names bound at module level in `streamlit_app.py` when execution
reaches the main block at line 267: the six imports and the three defined
functions (plus the checkbox variable). -/
def moduleNames : List String :=
  ["st", "pd", "requests", "go", "datetime", "yf", "ajuste_por_inflacion_usa",
   "get_cpi_usa", "get_ccl_from_ggal", "get_ipc_from_datos_gob_ar"]

/-- Outcome of executing a Python statement: a value, or an uncaught
`NameError` naming the unresolved identifier. -/
inductive PyOutcome (α : Type) where
  | ok : α → PyOutcome α
  | nameError : String → PyOutcome α
deriving DecidableEq

/-- Python name resolution for a call expression: the callee name must be
bound in the enclosing environment, otherwise evaluating the statement
raises `NameError` before the continuation runs. -/
def evalCall {α : Type} (env : List String) (callee : String) (k : Unit → PyOutcome α) :
    PyOutcome α :=
  if callee ∈ env then k () else .nameError callee

/-- Model of the main block (line 267 onward): the very first statement
evaluates `get_ccl_from_ypf()`.  The continuation `k` stands for everything
that would follow (inflation fetch, join, adjustment, chart rendering). -/
def mainBlock {α : Type} (k : Unit → PyOutcome α) : PyOutcome α :=
  evalCall moduleNames "get_ccl_from_ypf" k

/-! ### Helper lemmas -/

/-- The last element of a list is a member. -/
theorem memOfGetLastQ {α : Type} {l : List α} {x : α} (h : l.getLast? = some x) : x ∈ l := by
  cases l with
  | nil => simp at h
  | cons a t =>
    have hne : a :: t ≠ [] := by simp
    rw [List.getLast?_eq_getLast _ hne, Option.some.injEq] at h
    subst h
    exact List.getLast_mem hne

/-- In a pairwise-related list, every member is the last element or related
to it. -/
theorem pairwiseRelGetLast {α : Type} {r : α → α → Prop} :
    ∀ {l : List α}, l.Pairwise r → ∀ {x : α}, l.getLast? = some x →
      ∀ {y : α}, y ∈ l → y = x ∨ r y x := by
  intro l
  induction l with
  | nil => intro _ x hx; simp at hx
  | cons a t ih =>
    intro hp x hx y hy
    rcases List.pairwise_cons.mp hp with ⟨hat, ht⟩
    cases t with
    | nil =>
      simp at hx hy
      subst hx; subst hy; exact Or.inl rfl
    | cons b t2 =>
      rw [List.getLast?_cons_cons] at hx
      rcases List.mem_cons.mp hy with hya | hyt
      · subst hya
        exact Or.inr (hat x (memOfGetLastQ hx))
      · exact ih ht hx hyt

/-- The sort used by the pipeline is a permutation of its input. -/
theorem sortByFecha_perm (l : List Obs) : (sortByFecha l).Perm l :=
  List.perm_insertionSort leF l

/-- The sort used by the pipeline sorts by date. -/
theorem sortByFecha_sorted (l : List Obs) : List.Sorted leF (sortByFecha l) :=
  List.sorted_insertionSort leF l

/-- Membership is preserved by the sort. -/
theorem mem_sortByFecha {l : List Obs} {o : Obs} : o ∈ sortByFecha l ↔ o ∈ l :=
  (sortByFecha_perm l).mem_iff

/-- A successful as-of match is a member of the index series and its date
does not exceed the probed date. -/
theorem asofMatch_some {idx : List Obs} {d : Nat} {m : Obs}
    (h : asofMatch idx d = some m) : m ∈ idx ∧ m.fecha ≤ d := by
  have hm := memOfGetLastQ h
  rcases List.mem_filter.mp hm with ⟨hmem, hle⟩
  exact ⟨hmem, of_decide_eq_true hle⟩

/-- Maximality of the as-of match on a sorted index series: no index date
that is `≤ d` exceeds the matched date. -/
theorem asofMatch_max {idx : List Obs} {d : Nat} {m : Obs}
    (hs : List.Sorted leF idx) (h : asofMatch idx d = some m) :
    ∀ j ∈ idx, j.fecha ≤ d → j.fecha ≤ m.fecha := by
  intro j hj hjd
  have hjf : j ∈ idx.filter (fun o => o.fecha ≤ d) :=
    List.mem_filter.mpr ⟨hj, decide_eq_true hjd⟩
  have hpf : (idx.filter (fun o => o.fecha ≤ d)).Pairwise leF :=
    hs.sublist (List.filter_sublist idx)
  rcases pairwiseRelGetLast hpf h hjf with heq | hrel
  · rw [heq]
  · exact hrel

/-- When every index date exceeds `d`, the as-of match is empty. -/
theorem asofMatch_none {idx : List Obs} {d : Nat}
    (h : ∀ i ∈ idx, ¬ i.fecha ≤ d) : asofMatch idx d = none := by
  unfold asofMatch
  rw [List.filter_eq_nil_iff.mpr (fun a ha => by simpa using h a ha)]
  rfl

/-- When the probed date is at or beyond the last date of a sorted index
series, the as-of match is exactly the last observation. -/
theorem asofMatch_of_last_le {idx : List Obs} {d : Nat} {last : Obs}
    (hs : List.Sorted leF idx) (hlast : idx.getLast? = some last)
    (hd : last.fecha ≤ d) : asofMatch idx d = idx.getLast? := by
  unfold asofMatch
  rw [List.filter_eq_self.mpr]
  intro a ha
  rcases pairwiseRelGetLast hs hlast ha with heq | hrel
  · subst heq; exact decide_eq_true hd
  · exact decide_eq_true (Nat.le_trans hrel hd)

/-- Membership characterization of the joined-and-cleaned frame. -/
theorem mem_mergeAsofDropna {ccl idx : List Obs} {row : MRow} :
    row ∈ mergeAsofDropna ccl idx ↔
      ∃ o ∈ ccl, ∃ m, asofMatch idx o.fecha = some m ∧
        row = MRow.mk o.fecha o.value m.value := by
  unfold mergeAsofDropna
  rw [List.mem_filterMap]
  constructor
  · rintro ⟨o, ho, hmap⟩
    rcases Option.map_eq_some'.mp hmap with ⟨m, hm, hrow⟩
    exact ⟨o, ho, m, hm, hrow.symm⟩
  · rintro ⟨o, ho, m, hm, hrow⟩
    exact ⟨o, ho, by rw [hm]; simpa using hrow.symm⟩

/-- The dates of the joined frame form a sublist of the nominal dates. -/
theorem mergeAsofDropna_fecha_sublist (ccl idx : List Obs) :
    List.Sublist ((mergeAsofDropna ccl idx).map MRow.fecha) (ccl.map Obs.fecha) := by
  induction ccl with
  | nil => simp [mergeAsofDropna]
  | cons o t ih =>
    unfold mergeAsofDropna at ih ⊢
    cases h : asofMatch idx o.fecha with
    | none =>
      rw [List.filterMap_cons_none (by simp [h])]
      simp only [List.map_cons]
      exact List.Sublist.cons _ ih
    | some m =>
      rw [List.filterMap_cons_some (by simp [h] : _ = some (MRow.mk o.fecha o.value m.value))]
      simp only [List.map_cons]
      exact List.Sublist.cons₂ _ ih

/-- The joined frame of a date-sorted nominal series is date-sorted. -/
theorem mergeAsofDropna_pairwise {ccl : List Obs} (idx : List Obs)
    (hs : List.Sorted leF ccl) :
    (mergeAsofDropna ccl idx).Pairwise (fun a b => a.fecha ≤ b.fecha) := by
  have h1 : (ccl.map Obs.fecha).Pairwise (· ≤ ·) :=
    List.pairwise_map.mpr hs
  have h2 : ((mergeAsofDropna ccl idx).map MRow.fecha).Pairwise (· ≤ ·) :=
    h1.sublist (mergeAsofDropna_fecha_sublist ccl idx)
  exact List.pairwise_map.mp h2

/-! ### Claim theorems -/

/-- C3 (confirmed): for the nominal series
`[(2024-01-01, 800), (2024-02-01, 820), (2024-03-01, 900)]` and index series
`[(2024-01-01, 100), (2024-02-01, 110)]`, the align-and-adjust computation
produces exactly three records with adjusted values `880`, `820` and `900`,
the March row carrying the February index value `110` forward. -/
theorem alignAdjust_endToEnd_example :
    alignAdjust
      [Obs.mk 20240101 800, Obs.mk 20240201 820, Obs.mk 20240301 900]
      [Obs.mk 20240101 100, Obs.mk 20240201 110]
      = .ok [AdjRecord.mk 20240101 800 100 880, AdjRecord.mk 20240201 820 110 820,
             AdjRecord.mk 20240301 900 110 900] := by
  simp [alignAdjust, mergeAsofDropna, asofMatch, sortByFecha, List.insertionSort,
        List.orderedInsert, leF]
  norm_num

/-- C2 (confirmed): the first statement of the main block calls
`get_ccl_from_ypf()`, a name never bound at module level (the defined
composer is `get_ccl_from_ggal`), so every pipeline run raises `NameError`
before any continuation (join, adjustment, chart rendering) can run: the
success branch is unreachable for every continuation `k`. -/
theorem mainBlock_raises_nameError :
    (∀ (α : Type) (k : Unit → PyOutcome α),
        mainBlock k = PyOutcome.nameError "get_ccl_from_ypf") ∧
    "get_ccl_from_ypf" ∉ moduleNames ∧ "get_ccl_from_ggal" ∈ moduleNames := by
  refine ⟨fun α k => ?_, by decide, by decide⟩
  rw [mainBlock, evalCall, if_neg (by decide)]

/-- C7 (confirmed): when every nominal date strictly precedes every index
date, the as-of join leaves zero complete rows, and the aligner stops with
the no-overlap error, producing no records at all. -/
theorem alignAdjust_noOverlap (ccl ipc : List Obs)
    (h : ∀ o ∈ ccl, ∀ i ∈ ipc, o.fecha < i.fecha) :
    alignAdjust ccl ipc = .error .noOverlap := by
  have hmerged : mergeAsofDropna (sortByFecha ccl) (sortByFecha ipc) = [] := by
    unfold mergeAsofDropna
    rw [List.filterMap_eq_nil_iff]
    intro o ho
    have hnone : asofMatch (sortByFecha ipc) o.fecha = none := by
      apply asofMatch_none
      intro i hi
      have h1 := h o (mem_sortByFecha.mp ho) i (mem_sortByFecha.mp hi)
      omega
    rw [hnone]
    rfl
  simp [alignAdjust, hmerged]

/-- C7 witness: a concrete nominal series entirely before the index series
makes the aligner fail with the no-overlap error. -/
theorem alignAdjust_noOverlap_witness :
    (∀ o ∈ [Obs.mk 1 5], ∀ i ∈ [Obs.mk 2 100], o.fecha < i.fecha) ∧
    alignAdjust [Obs.mk 1 5] [Obs.mk 2 100] = .error .noOverlap :=
  ⟨by decide, alignAdjust_noOverlap _ _ (by decide)⟩

/-- C1 counterexample: the anchor actually used is the index value of the
LAST MERGED row, not the index series' chronologically last observation.
With nominal series `[(1, 100)]` and index series `[(1, 100), (2, 110)]`,
the script anchors at `100` (the joined value of the only merged row) and
returns `adjusted = 100`, whereas the claimed anchor is the index series'
last value `110`, under which the adjusted value would be
`100 * (110 / 100) = 110 ≠ 100`. -/
theorem anchor_is_not_latest_index :
    alignAdjust [Obs.mk 1 100] [Obs.mk 1 100, Obs.mk 2 110]
      = .ok [AdjRecord.mk 1 100 100 100] ∧
    specLatestIndexValue [Obs.mk 1 100, Obs.mk 2 110] = some 110 ∧
    (100 : ℚ) ≠ 100 * (110 / 100) := by
  refine ⟨?_, ?_, by norm_num⟩
  · simp [alignAdjust, mergeAsofDropna, asofMatch, sortByFecha, List.insertionSort,
          List.orderedInsert, leF]
  · simp [specLatestIndexValue, sortByFecha, List.insertionSort, List.orderedInsert, leF]

/-- C1 (amended, proved): the script anchors at the index value joined to
the chronologically last merged row, which may be older than the index
series' last observation; still, for an index series with unique dates and
positive values, every output record whose joined index date equals the
index series' last date satisfies `adjusted_value = nominal_value`
exactly. -/
theorem anchor_identity (ccl ipc : List Obs) (out : List AdjRecord)
    (hnodup : (ipc.map Obs.fecha).Nodup) (hpos : ∀ o ∈ ipc, 0 < o.value)
    (hok : alignAdjust ccl ipc = .ok out) :
    ∀ r ∈ out,
      (asofMatch (sortByFecha ipc) r.fecha).map Obs.fecha
        = ((sortByFecha ipc).getLast?).map Obs.fecha →
      r.ccl_ajustado = r.ccl_nominal := by
  intro r hr hjoin
  unfold alignAdjust at hok
  cases hlast : (mergeAsofDropna (sortByFecha ccl) (sortByFecha ipc)).getLast? with
  | none => rw [hlast] at hok; exact absurd hok (by simp)
  | some lastRow =>
    rw [hlast] at hok
    simp only [Except.ok.injEq] at hok
    subst hok
    rcases List.mem_map.mp hr with ⟨row, hrow, hfr⟩
    subst hfr
    rcases mem_mergeAsofDropna.mp hrow with ⟨o, ho, m, hm, hrm⟩
    subst hrm
    simp only at hjoin ⊢
    rw [hm] at hjoin
    have hmm := asofMatch_some hm
    have hsipne : sortByFecha ipc ≠ [] := by
      intro he
      rw [he] at hmm
      exact absurd hmm.1 (List.not_mem_nil m)
    obtain ⟨L, hL⟩ := Option.isSome_iff_exists.mp (List.getLast?_isSome.mpr hsipne)
    rw [hL] at hjoin
    simp only [Option.map_some', Option.some.injEq] at hjoin
    have hnodup2 : ((sortByFecha ipc).map Obs.fecha).Nodup :=
      (((sortByFecha_perm ipc).map Obs.fecha).nodup_iff).mpr hnodup
    have hmL : m = L :=
      List.inj_on_of_nodup_map hnodup2 hmm.1 (memOfGetLastQ hL) hjoin
    rcases mem_mergeAsofDropna.mp (memOfGetLastQ hlast) with ⟨o2, ho2, m2, hm2, hr2⟩
    have hpw := mergeAsofDropna_pairwise (sortByFecha ipc) (sortByFecha_sorted ccl)
    have hle : o.fecha ≤ lastRow.fecha := by
      rcases pairwiseRelGetLast hpw hlast hrow with heq | hrel
      · rw [← heq]
      · exact hrel
    have hLlast : L.fecha ≤ o2.fecha := by
      have h1 : L.fecha ≤ o.fecha := by rw [← hmL]; exact hmm.2
      have h2 : lastRow.fecha = o2.fecha := by rw [hr2]
      omega
    have hmatch2 : asofMatch (sortByFecha ipc) o2.fecha = some L := by
      rw [asofMatch_of_last_le (sortByFecha_sorted ipc) hL hLlast, hL]
    rw [hmatch2] at hm2
    have hm2L : m2 = L := by
      injection hm2 with h
      exact h.symm
    have hvpos : 0 < m.value := hpos m (mem_sortByFecha.mp hmm.1)
    have hipc : lastRow.ipc = m.value := by rw [hr2, hm2L, ← hmL]
    rw [hipc, div_self (ne_of_gt hvpos), mul_one]

/-- C1 witness: a concrete run in which the second record joins to the
index series' last date and its adjusted value equals its nominal value. -/
theorem anchor_identity_witness :
    ([Obs.mk 10 50, Obs.mk 20 80].map Obs.fecha).Nodup ∧
    (∀ o ∈ [Obs.mk 10 50, Obs.mk 20 80], 0 < o.value) ∧
    alignAdjust [Obs.mk 10 100, Obs.mk 20 200] [Obs.mk 10 50, Obs.mk 20 80]
      = .ok [AdjRecord.mk 10 100 50 160, AdjRecord.mk 20 200 80 200] ∧
    (AdjRecord.mk 20 200 80 200).ccl_ajustado = (AdjRecord.mk 20 200 80 200).ccl_nominal := by
  have hok : alignAdjust [Obs.mk 10 100, Obs.mk 20 200] [Obs.mk 10 50, Obs.mk 20 80]
      = .ok [AdjRecord.mk 10 100 50 160, AdjRecord.mk 20 200 80 200] := by
    simp [alignAdjust, mergeAsofDropna, asofMatch, sortByFecha, List.insertionSort,
          List.orderedInsert, leF]
    norm_num
  refine ⟨by decide, by decide, hok, ?_⟩
  apply anchor_identity _ _ _ (by decide) (by decide) hok (AdjRecord.mk 20 200 80 200)
  · simp
  · simp [asofMatch, sortByFecha, List.insertionSort, List.orderedInsert, leF]

/-- C4 (confirmed): in the as-of backward join each surviving row carries
the value of an index observation whose date is maximal among those not
exceeding the row's date, and a nominal observation with no index date at
or before it contributes no row to the output. -/
theorem asof_join_correct (ccl ipc : List Obs) :
    (∀ row ∈ mergeAsofDropna (sortByFecha ccl) (sortByFecha ipc),
       ∃ i ∈ ipc, i.fecha ≤ row.fecha ∧ row.ipc = i.value ∧
         ∀ j ∈ ipc, j.fecha ≤ row.fecha → j.fecha ≤ i.fecha) ∧
    (∀ o ∈ ccl, (∀ i ∈ ipc, ¬ i.fecha ≤ o.fecha) →
       ∀ row ∈ mergeAsofDropna (sortByFecha ccl) (sortByFecha ipc), row.fecha ≠ o.fecha) := by
  constructor
  · intro row hrow
    rcases mem_mergeAsofDropna.mp hrow with ⟨o, ho, m, hm, hrm⟩
    subst hrm
    have hmm := asofMatch_some hm
    refine ⟨m, mem_sortByFecha.mp hmm.1, hmm.2, rfl, ?_⟩
    intro j hj hjd
    exact asofMatch_max (sortByFecha_sorted ipc) hm j (mem_sortByFecha.mpr hj) hjd
  · intro o ho hnone row hrow hfe
    rcases mem_mergeAsofDropna.mp hrow with ⟨o3, ho3, m, hm, hrm⟩
    subst hrm
    simp only at hfe
    have hmm := asofMatch_some hm
    exact hnone m (mem_sortByFecha.mp hmm.1) (hfe ▸ hmm.2)

/-- C4 witness: in a concrete join the surviving March row carries the
latest index observation dated at or before it. -/
theorem asof_join_correct_witness :
    MRow.mk 20240315 5 110
      ∈ mergeAsofDropna (sortByFecha [Obs.mk 20240315 5])
          (sortByFecha [Obs.mk 20240101 100, Obs.mk 20240301 110]) ∧
    ∃ i ∈ [Obs.mk 20240101 100, Obs.mk 20240301 110],
      i.fecha ≤ (MRow.mk 20240315 5 110).fecha ∧ (MRow.mk 20240315 5 110).ipc = i.value ∧
      ∀ j ∈ [Obs.mk 20240101 100, Obs.mk 20240301 110],
        j.fecha ≤ (MRow.mk 20240315 5 110).fecha → j.fecha ≤ i.fecha :=
  ⟨by decide,
   (asof_join_correct [Obs.mk 20240315 5] [Obs.mk 20240101 100, Obs.mk 20240301 110]).1
     (MRow.mk 20240315 5 110) (by decide)⟩

/-- Scaling every index value commutes with the sort, which only inspects
dates. -/
theorem sortByFecha_map_scale (k : ℚ) (l : List Obs) :
    sortByFecha (l.map (fun o => Obs.mk o.fecha (k * o.value)))
      = (sortByFecha l).map (fun o => Obs.mk o.fecha (k * o.value)) :=
  (List.map_insertionSort leF leF (fun o => Obs.mk o.fecha (k * o.value)) l
    (fun _ _ _ _ => Iff.rfl)).symm

/-- Scaling every index value commutes with the as-of match, which only
inspects dates. -/
theorem asofMatch_map_scale (k : ℚ) (idx : List Obs) (d : Nat) :
    asofMatch (idx.map (fun o => Obs.mk o.fecha (k * o.value))) d
      = (asofMatch idx d).map (fun o => Obs.mk o.fecha (k * o.value)) := by
  unfold asofMatch
  rw [List.filter_map, List.getLast?_map]
  rfl

/-- Scaling every index value scales exactly the joined `ipc` column. -/
theorem mergeAsofDropna_map_scale (k : ℚ) (c idx : List Obs) :
    mergeAsofDropna c (idx.map (fun o => Obs.mk o.fecha (k * o.value)))
      = (mergeAsofDropna c idx).map (fun r => MRow.mk r.fecha r.ccl_nominal (k * r.ipc)) := by
  unfold mergeAsofDropna
  rw [List.map_filterMap]
  apply List.filterMap_congr
  intro o _
  rw [asofMatch_map_scale, Option.map_map, Option.map_map]
  rfl

/-- C9 (confirmed): multiplying every index value by a positive constant
`k` leaves every adjusted value unchanged (both the anchor and each row's
index value scale by `k`, which cancels in the ratio). -/
theorem alignAdjust_scale_invariant (ccl ipc : List Obs) (k : ℚ) (hk : 0 < k) :
    (alignAdjust ccl (ipc.map (fun o => Obs.mk o.fecha (k * o.value)))).map
        (List.map AdjRecord.ccl_ajustado)
      = (alignAdjust ccl ipc).map (List.map AdjRecord.ccl_ajustado) := by
  unfold alignAdjust
  rw [sortByFecha_map_scale, mergeAsofDropna_map_scale, List.getLast?_map]
  cases h : (mergeAsofDropna (sortByFecha ccl) (sortByFecha ipc)).getLast? with
  | none => rfl
  | some lastRow =>
    simp only [Option.map_some', Except.map, List.map_map]
    congr 1
    apply List.map_congr_left
    intro r _
    simp only [Function.comp_apply]
    rw [mul_div_mul_left _ _ (ne_of_gt hk)]

/-- C9 witness: doubling the single index value leaves the adjusted column
unchanged. -/
theorem alignAdjust_scale_invariant_witness :
    (0 : ℚ) < 2 ∧
    (alignAdjust [Obs.mk 1 100] ([Obs.mk 1 50].map (fun o => Obs.mk o.fecha (2 * o.value)))).map
        (List.map AdjRecord.ccl_ajustado)
      = (alignAdjust [Obs.mk 1 100] [Obs.mk 1 50]).map (List.map AdjRecord.ccl_ajustado) :=
  ⟨by norm_num, alignAdjust_scale_invariant [Obs.mk 1 100] [Obs.mk 1 50] 2 (by norm_num)⟩

/-- C5 (confirmed): the USD/ADR leg is mandatory — its failure makes the
composer return `None` immediately; a failed or empty primary ARS leg is
retried exactly once against the data912.com fallback, after which the
composer gives up when the fallback also fails; and when the fallback
succeeds with non-empty rows, the composed output equals the output with
the fallback rows used as the (only) ARS source. -/
theorem composeCCL_fallback (usd p fb fb2 : FetchResult)
    (hp : p = FetchResult.fail ∨ p = FetchResult.ok []) :
    composeCCL FetchResult.fail p fb = none ∧
    (fallbackArs fb = none → composeCCL usd p fb = none) ∧
    (∀ rows, fb = FetchResult.ok rows → rows ≠ [] →
      composeCCL usd p fb = composeCCL usd fb fb2) := by
  have hres : resolveArs p fb = fallbackArs fb := by
    rcases hp with hp | hp <;> subst hp <;> rfl
  refine ⟨rfl, ?_, ?_⟩
  · intro hfb
    cases usd with
    | fail => rfl
    | ok usdRows =>
      unfold composeCCL
      rw [hres, hfb]
      by_cases he : usdRows.isEmpty <;> simp [he]
  · intro rows hfb hne
    subst hfb
    have hrows : rows.isEmpty = false := by
      cases rows with
      | nil => exact absurd rfl hne
      | cons a t => rfl
    cases usd with
    | fail => rfl
    | ok usdRows =>
      unfold composeCCL
      rw [hres]
      have h1 : fallbackArs (FetchResult.ok rows) = some rows := by
        simp [fallbackArs, hrows]
      have h2 : resolveArs (FetchResult.ok rows) fb2 = some rows := by
        simp [resolveArs, hrows]
      rw [h1, h2]

/-- C5 witness: with a failed primary ARS leg and a one-row fallback, the
composer fails when the USD leg fails, fails when the fallback is also
unavailable, and otherwise computes the same output as with the fallback
rows as the only ARS source. -/
theorem composeCCL_fallback_witness :
    ((FetchResult.fail : FetchResult) = FetchResult.fail
      ∨ (FetchResult.fail : FetchResult) = FetchResult.ok []) ∧
    (composeCCL FetchResult.fail FetchResult.fail (FetchResult.ok [Obs.mk 1 1000]) = none ∧
     (fallbackArs (FetchResult.ok [Obs.mk 1 1000]) = none →
       composeCCL (FetchResult.ok [Obs.mk 1 10]) FetchResult.fail
         (FetchResult.ok [Obs.mk 1 1000]) = none) ∧
     (∀ rows, FetchResult.ok [Obs.mk 1 1000] = FetchResult.ok rows → rows ≠ [] →
       composeCCL (FetchResult.ok [Obs.mk 1 10]) FetchResult.fail
           (FetchResult.ok [Obs.mk 1 1000])
         = composeCCL (FetchResult.ok [Obs.mk 1 10]) (FetchResult.ok [Obs.mk 1 1000])
             FetchResult.fail)) :=
  ⟨Or.inl rfl,
   composeCCL_fallback (FetchResult.ok [Obs.mk 1 10]) FetchResult.fail
     (FetchResult.ok [Obs.mk 1 1000]) FetchResult.fail (Or.inl rfl)⟩

/-- The gap-filling loop produces exactly the spec's chained continuation
on the table entries whose month lies strictly after the last retrieved
month. -/
theorem gapFillLoop_eq_specSynth (u : Nat) :
    ∀ (t : List (Nat × ℚ)) (v : ℚ),
      gapFillLoop v u t = specSynth v (t.filter (fun q => u < q.1)) := by
  intro t
  induction t with
  | nil => intro v; rfl
  | cons q rest ih =>
    intro v
    cases q with
    | mk f pct =>
      by_cases h : u < f
      · rw [List.filter_cons_of_pos (by simpa using h)]
        simp only [gapFillLoop, if_pos h, specSynth]
        rw [ih]
      · rw [List.filter_cons_of_neg (by simpa using h)]
        simp only [gapFillLoop, if_neg h]
        exact ih v

/-- The months of the synthesized observations are exactly the declared
table months strictly after the last retrieved month. -/
theorem specSynth_fechas :
    ∀ (t : List (Nat × ℚ)) (v : ℚ), (specSynth v t).map Obs.fecha = t.map Prod.fst := by
  intro t
  induction t with
  | nil => intro v; rfl
  | cons q rest ih =>
    intro v
    cases q with
    | mk f pct => simp only [specSynth, List.map_cons, ih]

/-- Month projection of the gap-filling loop. -/
theorem gapFillLoop_fechas (u : Nat) (t : List (Nat × ℚ)) (v : ℚ) :
    (gapFillLoop v u t).map Obs.fecha = (t.filter (fun q => u < q.1)).map Prod.fst := by
  rw [gapFillLoop_eq_specSynth, specSynth_fechas]

/-- Every synthesized observation is dated strictly after the last
retrieved month. -/
theorem gapFillLoop_mem_gt (u : Nat) (t : List (Nat × ℚ)) (v : ℚ) :
    ∀ o ∈ gapFillLoop v u t, u < o.fecha := by
  intro o ho
  have h1 : o.fecha ∈ (gapFillLoop v u t).map Obs.fecha := List.mem_map_of_mem Obs.fecha ho
  rw [gapFillLoop_fechas] at h1
  rcases List.mem_map.mp h1 with ⟨q, hq, hfq⟩
  have := List.of_mem_filter hq
  rw [← hfq]
  exact of_decide_eq_true this

/-- C6 (confirmed): when the retrieved index series ends at a month before
the June 2025 cutoff, `get_ipc_from_datos_gob_ar` returns the retrieved
frame unchanged with the synthesized continuation appended after it; the
continuation is exactly the spec's chain
`index[m+1] = index[m] * (1 + pct[m+1]/100)` over the table months strictly
after the last retrieved month, in strictly increasing chronological
order. -/
theorem get_ipc_gapFill (raw : List (Nat × Option ℚ)) (lastObs : Obs)
    (hlast : (processIpc raw).getLast? = some lastObs)
    (hM : lastObs.fecha < fechaJunio2025) :
    get_ipc raw
      = some (processIpc raw ++ gapFillLoop lastObs.value lastObs.fecha datos2025) ∧
    gapFillLoop lastObs.value lastObs.fecha datos2025
      = specSynth lastObs.value (datos2025.filter (fun q => lastObs.fecha < q.1)) ∧
    (gapFillLoop lastObs.value lastObs.fecha datos2025).map Obs.fecha
      = (datos2025.filter (fun q => lastObs.fecha < q.1)).map Prod.fst ∧
    ((gapFillLoop lastObs.value lastObs.fecha datos2025).map Obs.fecha).Pairwise (· < ·) ∧
    (∀ o ∈ gapFillLoop lastObs.value lastObs.fecha datos2025, lastObs.fecha < o.fecha) := by
  refine ⟨?_, gapFillLoop_eq_specSynth _ _ _, gapFillLoop_fechas _ _ _, ?_,
    gapFillLoop_mem_gt _ _ _⟩
  · have hne : (parsedIpc raw).isEmpty = false := by
      cases hq : parsedIpc raw with
      | nil =>
        exfalso
        have : processIpc raw = [] := by rw [processIpc, hq]; rfl
        rw [this] at hlast
        simp at hlast
      | cons a t => rfl
    simp [get_ipc, hne, hlast, hM]
  · rw [gapFillLoop_fechas]
    have h1 : (datos2025.map Prod.fst).Pairwise (· < ·) := by decide
    exact h1.sublist ((List.filter_sublist datos2025).map Prod.fst)

/-- C6 witness: a single retrieved observation for December 2024 is
extended with all six synthesized 2025 months. -/
theorem get_ipc_gapFill_witness :
    (processIpc [(20241215, some 7000)]).getLast? = some (Obs.mk 202412 7000) ∧
    (Obs.mk 202412 7000).fecha < fechaJunio2025 ∧
    get_ipc [(20241215, some 7000)]
      = some (processIpc [(20241215, some 7000)]
          ++ gapFillLoop (7000 : ℚ) 202412 datos2025) := by
  have h1 : (processIpc [(20241215, some 7000)]).getLast? = some (Obs.mk 202412 7000) := by
    decide
  have h2 : (Obs.mk 202412 7000).fecha < fechaJunio2025 := by decide
  exact ⟨h1, h2, (get_ipc_gapFill [(20241215, some 7000)] (Obs.mk 202412 7000) h1 h2).1⟩

/-- Every value in a successful output of the leg-joining step is strictly
positive (it is the `ccl_nominal > 0` filter's output). -/
theorem composeFromLegs_pos (a u : List Obs) (out : List Obs)
    (hok : composeFromLegs a u = some out) : ∀ o ∈ out, 0 < o.value := by
  simp only [composeFromLegs] at hok
  split_ifs at hok
  have hout := Option.some.inj hok
  subst hout
  intro o ho
  exact of_decide_eq_true (List.mem_filter.mp ho).2

/-- Every value in a successful composer output is strictly positive. -/
theorem composeCCL_pos (usd p fb : FetchResult) (out : List Obs)
    (hok : composeCCL usd p fb = some out) : ∀ o ∈ out, 0 < o.value := by
  cases usd with
  | fail => exact absurd hok (by simp [composeCCL])
  | ok usdRows =>
    simp only [composeCCL] at hok
    split_ifs at hok
    cases hra : resolveArs p fb with
    | none => rw [hra] at hok; exact Option.noConfusion hok
    | some arsRows => rw [hra] at hok; exact composeFromLegs_pos _ _ _ hok

/-- Every successful output of the index provider is sorted non-strictly
ascending by date (the retrieved part is sorted, and synthesized rows are
appended after it with strictly later months). -/
theorem get_ipc_sorted (raw : List (Nat × Option ℚ)) (out : List Obs)
    (hok : get_ipc raw = some out) : out.Pairwise leF := by
  by_cases h1 : (parsedIpc raw).isEmpty
  · exact absurd hok (by simp [get_ipc, h1])
  · cases hq : (processIpc raw).getLast? with
    | none => exact absurd hok (by simp [get_ipc, h1, hq])
    | some lastObs =>
      by_cases h2 : lastObs.fecha < fechaJunio2025
      · have hout : out
            = processIpc raw ++ gapFillLoop lastObs.value lastObs.fecha datos2025 := by
          have h3 := hok
          simp [get_ipc, h1, hq, h2] at h3
          exact h3.symm
        subst hout
        apply List.pairwise_append.mpr
        refine ⟨sortByFecha_sorted _, ?_, ?_⟩
        · have h3 : ((gapFillLoop lastObs.value lastObs.fecha datos2025).map
              Obs.fecha).Pairwise (· < ·) := by
            rw [gapFillLoop_fechas]
            exact (by decide : (datos2025.map Prod.fst).Pairwise (· < ·)).sublist
              ((List.filter_sublist datos2025).map Prod.fst)
          exact (List.pairwise_map.mp h3).imp (fun h => Nat.le_of_lt h)
        · intro a ha b hb
          have hble : a.fecha ≤ lastObs.fecha := by
            rcases pairwiseRelGetLast (sortByFecha_sorted _) hq ha with heq | hrel
            · rw [heq]
            · exact hrel
          exact Nat.le_trans hble
            (Nat.le_of_lt (gapFillLoop_mem_gt lastObs.fecha datos2025 lastObs.value b hb))
      · have hout : out = processIpc raw := by
          have h3 := hok
          simp [get_ipc, h1, hq, h2] at h3
          exact h3.symm
        subst hout
        exact sortByFecha_sorted _

/-- C8 counterexample: the fetchers do NOT guarantee the claimed invariant.
The index provider keeps a negative value (only NaN is dropped) and keeps
two observations truncated to the same month (no deduplication), and the
composer's output follows the ARS leg's row order without re-sorting, so it
can be returned date-descending. -/
theorem fetcher_invariants_counterexample :
    get_ipc [(20250715, some 100), (20250720, some (-5))]
      = some [Obs.mk 202507 100, Obs.mk 202507 (-5)] ∧
    ¬ (0 : ℚ) < -5 ∧
    ¬ (([Obs.mk 202507 100, Obs.mk 202507 (-5)].map Obs.fecha).Nodup) ∧
    composeCCL (FetchResult.ok [Obs.mk 2 2, Obs.mk 1 1]) FetchResult.fail
        (FetchResult.ok [Obs.mk 2 20, Obs.mk 1 10])
      = some [Obs.mk 2 100, Obs.mk 1 100] ∧
    ¬ (([Obs.mk 2 100, Obs.mk 1 100].map Obs.fecha).Pairwise (· ≤ ·)) := by
  refine ⟨?_, by norm_num, by decide, ?_, by decide⟩
  · simp [get_ipc, processIpc, parsedIpc, truncMonth, sortByFecha, List.insertionSort,
          List.orderedInsert, leF, fechaJunio2025]
  · simp [composeCCL, resolveArs, fallbackArs, composeFromLegs, mergeInner]
    norm_num

/-- C8 (amended, proved): the composed CCL series contains only strictly
positive values, and the domestic index series is returned sorted
non-strictly ascending by date; but neither fetcher deduplicates dates, the
index provider does not filter non-positive values, and the composed CCL
series is not re-sorted by the composer. -/
theorem fetcher_invariants_amended :
    (∀ usd p fb out, composeCCL usd p fb = some out → ∀ o ∈ out, 0 < o.value) ∧
    (∀ raw out, get_ipc raw = some out → out.Pairwise leF) :=
  ⟨fun usd p fb out hok => composeCCL_pos usd p fb out hok,
   fun raw out hok => get_ipc_sorted raw out hok⟩

/-- C8 witness: concrete runs of both providers, with the positivity of the
composed output and the sortedness of the index output obtained from the
amended invariant theorem. -/
theorem fetcher_invariants_amended_witness :
    (composeCCL (FetchResult.ok [Obs.mk 1 10]) (FetchResult.ok [Obs.mk 1 1000])
        FetchResult.fail = some [Obs.mk 1 1000] ∧
      ∀ o ∈ [Obs.mk 1 1000], 0 < o.value) ∧
    (get_ipc [(20250715, some 100)] = some [Obs.mk 202507 100] ∧
      ([Obs.mk 202507 100] : List Obs).Pairwise leF) := by
  have h1 : composeCCL (FetchResult.ok [Obs.mk 1 10]) (FetchResult.ok [Obs.mk 1 1000])
      FetchResult.fail = some [Obs.mk 1 1000] := by
    simp [composeCCL, resolveArs, fallbackArs, composeFromLegs, mergeInner]
  have h2 : get_ipc [(20250715, some 100)] = some [Obs.mk 202507 100] := by
    simp [get_ipc, processIpc, parsedIpc, truncMonth, sortByFecha, List.insertionSort,
          List.orderedInsert, leF, fechaJunio2025]
  exact ⟨⟨h1, fetcher_invariants_amended.1 _ _ _ _ h1⟩,
         ⟨h2, fetcher_invariants_amended.2 _ _ h2⟩⟩

set_option maxRecDepth 40000 in
/-- C10 (confirmed): `get_cpi_usa` is pure and total — it performs no
request, its `except`/`None` branch is unreachable, and every invocation
returns the same fixed table: 126 monthly observations from January 2015
through June 2025, strictly increasing in date, every value positive. -/
theorem get_cpi_usa_fixed_table :
    get_cpi_usa = some cpiObs ∧
    cpiObs.length = 126 ∧
    cpiObs.head?.map Obs.fecha = some 201501 ∧
    cpiObs.getLast?.map Obs.fecha = some 202506 ∧
    cpiObs.Pairwise (fun a b => a.fecha < b.fecha) ∧
    (∀ o ∈ cpiObs, 0 < o.value) := by
  have hs : List.Sorted leF cpiObs := by decide
  refine ⟨?_, by decide, by decide, by decide, by decide, ?_⟩
  · show some (sortByFecha cpiObs) = some cpiObs
    rw [sortByFecha, hs.insertionSort_eq]
  · intro o ho
    rcases List.mem_map.mp ho with ⟨p, hp, hpo⟩
    have hpos : 0 < p.2 := (by decide : ∀ q ∈ datos_cpi, 0 < q.2) p hp
    rw [← hpo]
    exact div_pos (by exact_mod_cast hpos) (by norm_num)

end MepHoy
